import Mathlib

/-!
Verification of `src/week10_resource_tagging_app.py` (CloudMart resource
tagging dashboard).

The program keeps an in-memory pandas table of cloud resources.  We embed a
table as a `List Row`; a missing (NaN) cell of a tag-descriptive column is
`none`.  The remediation editor shows the columns ResourceID, Service,
Department, Project, Environment, Owner, CostCenter, MonthlyCostUSD of the
untagged rows; since the editor has `num_rows="dynamic"` and every shown
column editable, the table submitted by the user is an arbitrary list of
such rows (`List EditedRow`).
-/

/-- One row of the CloudMart table.  `extra` stands for any further columns
the CSV may carry beyond the ones the program names. -/
@[ext]
structure Row where
  resourceID : String
  service : String
  region : String
  accountID : String
  department : Option String
  project : Option String
  environment : Option String
  owner : Option String
  costCenter : Option String
  monthlyCostUSD : ℚ
  tagged : String
  extra : List String
deriving DecidableEq

/-- One row of the table returned by the remediation `st.data_editor`
(the columns selected on line 326 of the script). -/
structure EditedRow where
  resourceID : String
  service : String
  department : Option String
  project : Option String
  environment : Option String
  owner : Option String
  costCenter : Option String
  monthlyCostUSD : ℚ
deriving DecidableEq

/-- Effect of one iteration of the Apply Remediation loop (lines 333-344)
on one row of the remediated table: if the row is selected by the mask
`remediated_df['ResourceID'] == resource_id` then its five tag-descriptive
columns are overwritten with the edited values, and `Tagged` is set to
`'Yes'` when the edited Department and Project are both non-NA. -/
def applyEditedRow (e : EditedRow) (r : Row) : Row :=
  if r.resourceID = e.resourceID then
    { r with
      department := e.department
      project := e.project
      environment := e.environment
      owner := e.owner
      costCenter := e.costCenter
      tagged := if e.department.isSome && e.project.isSome then "Yes" else r.tagged }
  else r

/-- The Apply Remediation handler (lines 332-346): iterate over the rows of
the edited table, and for each one update every matching row of the
remediated table in place. -/
def applyRemediation (edited : List EditedRow) (rem : List Row) : List Row :=
  edited.foldl (fun acc e => acc.map (fun r => applyEditedRow e r)) rem

/-- Cumulative effect of the whole edited table on a single remediated row. -/
def applyAll (edited : List EditedRow) (r : Row) : Row :=
  edited.foldl (fun r e => applyEditedRow e r) r

theorem applyRemediation_eq_map (edited : List EditedRow) (rem : List Row) :
    applyRemediation edited rem = rem.map (fun r => applyAll edited r) := by
  induction edited generalizing rem with
  | nil => simp [applyRemediation, applyAll]
  | cons e es ih =>
      simp only [applyRemediation, List.foldl_cons] at *
      rw [ih, List.map_map]
      rfl

theorem applyEditedRow_resourceID (e : EditedRow) (r : Row) :
    (applyEditedRow e r).resourceID = r.resourceID := by
  unfold applyEditedRow
  split <;> rfl

theorem applyAll_resourceID (edited : List EditedRow) (r : Row) :
    (applyAll edited r).resourceID = r.resourceID := by
  induction edited generalizing r with
  | nil => rfl
  | cons e es ih =>
      simp only [applyAll, List.foldl_cons] at *
      rw [ih, applyEditedRow_resourceID]

/-- A projection of a row that one loop iteration never changes is never
changed by the whole loop. -/
theorem applyAll_invar {α : Type} (f : Row → α)
    (hf : ∀ e r, f (applyEditedRow e r) = f r)
    (edited : List EditedRow) (r : Row) : f (applyAll edited r) = f r := by
  induction edited generalizing r with
  | nil => rfl
  | cons e es ih =>
      simp only [applyAll, List.foldl_cons] at *
      rw [ih, hf]

/-- The rows of the edited table whose ResourceID matches a given one,
in the order the loop visits them. -/
def matchingEdits (edited : List EditedRow) (rid : String) : List EditedRow :=
  edited.filter (fun e => decide (e.resourceID = rid))

theorem applyEditedRow_noMatch (e : EditedRow) (r : Row)
    (h : r.resourceID ≠ e.resourceID) : applyEditedRow e r = r := by
  unfold applyEditedRow
  simp [h]

/-- Every one of the five tag-descriptive columns (and more generally any
projection that each matching iteration overwrites with a value taken from
the edited row alone) ends up holding the value from the LAST matching
edited row, and keeps its original value when no edited row matches. -/
theorem applyAll_field {α : Type} (f : Row → α) (fe : EditedRow → α)
    (hmatch : ∀ e r, r.resourceID = e.resourceID → f (applyEditedRow e r) = fe e)
    (edited : List EditedRow) (r : Row) :
    f (applyAll edited r) =
      match (matchingEdits edited r.resourceID).getLast? with
      | none => f r
      | some e => fe e := by
  induction edited generalizing r with
  | nil => rfl
  | cons e es ih =>
      show f (applyAll es (applyEditedRow e r)) = _
      by_cases h : r.resourceID = e.resourceID
      · have hrid : (applyEditedRow e r).resourceID = r.resourceID :=
          applyEditedRow_resourceID e r
        have hme : matchingEdits (e :: es) r.resourceID =
            e :: matchingEdits es r.resourceID := by
          simp [matchingEdits, List.filter_cons, h.symm]
        have hthis := ih (applyEditedRow e r)
        rw [hrid] at hthis
        rw [hme]
        cases hl : matchingEdits es r.resourceID with
        | nil =>
            rw [hl] at hthis
            simp only [List.getLast?_nil] at hthis
            rw [hthis, hmatch e r h]
            rfl
        | cons x xs =>
            rw [hl] at hthis
            rw [List.getLast?_cons_cons]
            exact hthis
      · have hr : applyEditedRow e r = r := applyEditedRow_noMatch e r h
        have h' : ¬ (e.resourceID = r.resourceID) := fun hc => h hc.symm
        have hme : matchingEdits (e :: es) r.resourceID =
            matchingEdits es r.resourceID := by
          simp [matchingEdits, List.filter_cons, h']
        rw [hr, hme]
        exact ih r

/-- The guard of line 343: the edited row's Department and Project are both
non-NA. -/
def hasDeptProj (e : EditedRow) : Bool := e.department.isSome && e.project.isSome

/-- The `Tagged` flag after the loop: it becomes `'Yes'` exactly when some
matching edited row passes the Department/Project guard, and otherwise keeps
the value it had before the loop. -/
theorem applyAll_tagged (edited : List EditedRow) (r : Row) :
    (applyAll edited r).tagged =
      if (matchingEdits edited r.resourceID).any hasDeptProj then "Yes"
      else r.tagged := by
  induction edited generalizing r with
  | nil => rfl
  | cons e es ih =>
      show (applyAll es (applyEditedRow e r)).tagged = _
      by_cases h : r.resourceID = e.resourceID
      · have hrid : (applyEditedRow e r).resourceID = r.resourceID :=
          applyEditedRow_resourceID e r
        have hme : matchingEdits (e :: es) r.resourceID =
            e :: matchingEdits es r.resourceID := by
          simp [matchingEdits, List.filter_cons, h.symm]
        have ht : (applyEditedRow e r).tagged =
            if hasDeptProj e then "Yes" else r.tagged := by
          simp [applyEditedRow, h, hasDeptProj]
        have hthis := ih (applyEditedRow e r)
        rw [hrid, ht] at hthis
        rw [hme, List.any_cons, hthis]
        cases h1 : hasDeptProj e <;>
          cases h2 : (matchingEdits es r.resourceID).any hasDeptProj <;>
          simp [h1, h2]
      · have hr : applyEditedRow e r = r := applyEditedRow_noMatch e r h
        have h' : ¬ (e.resourceID = r.resourceID) := fun hc => h hc.symm
        have hme : matchingEdits (e :: es) r.resourceID =
            matchingEdits es r.resourceID := by
          simp [matchingEdits, List.filter_cons, h']
        rw [hr, hme]
        exact ih r

/-- Applying the same edited table a second time leaves any last-match
field unchanged. -/
theorem applyAll_field_idem {α : Type} (f : Row → α) (fe : EditedRow → α)
    (hmatch : ∀ e r, r.resourceID = e.resourceID → f (applyEditedRow e r) = fe e)
    (edited : List EditedRow) (r : Row) :
    f (applyAll edited (applyAll edited r)) = f (applyAll edited r) := by
  have h1 := applyAll_field f fe hmatch edited r
  have h2 := applyAll_field f fe hmatch edited (applyAll edited r)
  rw [applyAll_resourceID] at h2
  cases hl : (matchingEdits edited r.resourceID).getLast? with
  | none =>
      rw [hl] at h2
      exact h2
  | some e =>
      rw [hl] at h1 h2
      rw [h1, h2]

/-- Applying the same edited table a second time leaves `Tagged` unchanged. -/
theorem applyAll_tagged_idem (edited : List EditedRow) (r : Row) :
    (applyAll edited (applyAll edited r)).tagged = (applyAll edited r).tagged := by
  have h1 := applyAll_tagged edited r
  have h2 := applyAll_tagged edited (applyAll edited r)
  rw [applyAll_resourceID] at h2
  cases hb : (matchingEdits edited r.resourceID).any hasDeptProj with
  | false =>
      rw [hb] at h2
      simpa using h2
  | true =>
      rw [hb] at h1 h2
      simp only [if_pos rfl, if_true] at h1 h2
      rw [h1, h2]

/-- One remediated row is idempotent under a fixed edited table. -/
theorem applyAll_idem (edited : List EditedRow) (r : Row) :
    applyAll edited (applyAll edited r) = applyAll edited r := by
  have hinv : ∀ {α : Type} (f : Row → α),
      (∀ e r, f (applyEditedRow e r) = f r) →
      f (applyAll edited (applyAll edited r)) = f (applyAll edited r) :=
    fun f hf => applyAll_invar f hf edited (applyAll edited r)
  apply Row.ext
  · exact hinv Row.resourceID (fun e r => applyEditedRow_resourceID e r)
  · exact hinv Row.service (by intro e r; unfold applyEditedRow; split <;> rfl)
  · exact hinv Row.region (by intro e r; unfold applyEditedRow; split <;> rfl)
  · exact hinv Row.accountID (by intro e r; unfold applyEditedRow; split <;> rfl)
  · exact applyAll_field_idem Row.department EditedRow.department
      (by intro e r h; simp [applyEditedRow, h]) edited r
  · exact applyAll_field_idem Row.project EditedRow.project
      (by intro e r h; simp [applyEditedRow, h]) edited r
  · exact applyAll_field_idem Row.environment EditedRow.environment
      (by intro e r h; simp [applyEditedRow, h]) edited r
  · exact applyAll_field_idem Row.owner EditedRow.owner
      (by intro e r h; simp [applyEditedRow, h]) edited r
  · exact applyAll_field_idem Row.costCenter EditedRow.costCenter
      (by intro e r h; simp [applyEditedRow, h]) edited r
  · exact hinv Row.monthlyCostUSD (by intro e r; unfold applyEditedRow; split <;> rfl)
  · exact applyAll_tagged_idem edited r
  · exact hinv Row.extra (by intro e r; unfold applyEditedRow; split <;> rfl)

theorem applyRemediation_length (edited : List EditedRow) (rem : List Row) :
    (applyRemediation edited rem).length = rem.length := by
  rw [applyRemediation_eq_map, List.length_map]

/-- A row no edited row matches is untouched by the whole loop. -/
theorem applyAll_noMatch (edited : List EditedRow) (r : Row)
    (h : ∀ e ∈ edited, e.resourceID ≠ r.resourceID) : applyAll edited r = r := by
  induction edited with
  | nil => rfl
  | cons e es ih =>
      show applyAll es (applyEditedRow e r) = r
      rw [applyEditedRow_noMatch e r (fun hc => h e (by simp) hc.symm)]
      exact ih (fun e' he' => h e' (by simp [he']))

/-- The columns of a row that the Apply Remediation handler never assigns:
ResourceID, Service, Region, AccountID, MonthlyCostUSD and the remaining
columns. -/
def frameColumns (r : Row) : String × String × String × String × ℚ × List String :=
  (r.resourceID, r.service, r.region, r.accountID, r.monthlyCostUSD, r.extra)

theorem applyEditedRow_frame (e : EditedRow) (r : Row) :
    frameColumns (applyEditedRow e r) = frameColumns r := by
  unfold applyEditedRow frameColumns
  split <;> rfl

theorem applyRemediation_resourceIDs (edited : List EditedRow) (rem : List Row) :
    (applyRemediation edited rem).map Row.resourceID = rem.map Row.resourceID := by
  rw [applyRemediation_eq_map, List.map_map]
  congr 1
  funext r
  exact applyAll_resourceID edited r

/-- The session-scoped storage of the script: `st.session_state` holds the
original load (`cloudmart_data`, line 105) and the remediated copy
(`remediated_data`, line 108). -/
structure SessionState where
  cloudmart_data : List Row
  remediated_data : List Row
deriving DecidableEq

/-- Lines 104-108: on the first run the file is loaded and the remediated
table starts as a copy of the original. -/
def initSession (original : List Row) : SessionState :=
  { cloudmart_data := original, remediated_data := original }

/-- One press of the Apply Remediation button (lines 332-346): the handler
mutates only the remediated copy. -/
def applyStep (s : SessionState) (edited : List EditedRow) : SessionState :=
  { cloudmart_data := s.cloudmart_data
    remediated_data := applyRemediation edited s.remediated_data }

/-- A whole session: one load followed by any sequence of edit-and-apply
operations. -/
def runSession (original : List Row) (edits : List (List EditedRow)) : SessionState :=
  edits.foldl applyStep (initSession original)

theorem foldl_applyStep_cloudmart (edits : List (List EditedRow)) :
    ∀ s : SessionState, (edits.foldl applyStep s).cloudmart_data = s.cloudmart_data := by
  induction edits with
  | nil => intro s; rfl
  | cons e es ih => intro s; exact ih (applyStep s e)

theorem foldl_applyStep_resourceIDs (edits : List (List EditedRow)) :
    ∀ s : SessionState, (edits.foldl applyStep s).remediated_data.map Row.resourceID =
      s.remediated_data.map Row.resourceID := by
  induction edits with
  | nil => intro s; rfl
  | cons e es ih =>
      intro s
      rw [List.foldl_cons, ih (applyStep s e)]
      exact applyRemediation_resourceIDs e s.remediated_data

/-- C2: over every sequence of edit-and-apply remediation operations, the
remediated table keeps exactly the row identifiers of the original table
(even the list of ResourceIDs, in order, is preserved), whatever rows the
user adds or deletes in the dynamic editor. -/
theorem claim_C2_remediated_keeps_resourceIDs (original : List Row)
    (edits : List (List EditedRow)) :
    (runSession original edits).remediated_data.map Row.resourceID =
      original.map Row.resourceID := by
  unfold runSession
  rw [foldl_applyStep_resourceIDs]
  rfl

/-- C3: applying remediation changes at most the five tag-descriptive
columns and the Tagged flag: the ResourceID, Service, Region, AccountID,
MonthlyCostUSD and all remaining columns of every row are unchanged. -/
theorem claim_C3_apply_remediation_frame (edited : List EditedRow) (rem : List Row) :
    (applyRemediation edited rem).map frameColumns = rem.map frameColumns := by
  rw [applyRemediation_eq_map, List.map_map]
  congr 1
  funext r
  exact applyAll_invar frameColumns (fun e r => applyEditedRow_frame e r) edited r

/-- C6: the original loaded table is immutable for the lifetime of the
session: after any sequence of apply-remediation operations the
`cloudmart_data` copy is exactly the table that was loaded. -/
theorem claim_C6_original_immutable (original : List Row)
    (edits : List (List EditedRow)) :
    (runSession original edits).cloudmart_data = original := by
  unfold runSession
  rw [foldl_applyStep_cloudmart]
  rfl

/-- C10: applying remediation twice with the same edited table gives the
same remediated table as applying it once. -/
theorem claim_C10_apply_remediation_idempotent (edited : List EditedRow)
    (rem : List Row) :
    applyRemediation edited (applyRemediation edited rem) =
      applyRemediation edited rem := by
  simp only [applyRemediation_eq_map, List.map_map]
  congr 1
  funext r
  exact applyAll_idem edited r

/-- A membership form of the map characterisation of the handler. -/
theorem mem_applyRemediation (edited : List EditedRow) (rem : List Row)
    (r' : Row) (hmem : r' ∈ applyRemediation edited rem) :
    ∃ r₀ ∈ rem, r' = applyAll edited r₀ := by
  rw [applyRemediation_eq_map] at hmem
  obtain ⟨r₀, hr₀, hr⟩ := List.mem_map.mp hmem
  exact ⟨r₀, hr₀, hr.symm⟩

/-- An untagged resource, as loaded. -/
def rowUntagged : Row :=
  { resourceID := "R-001", service := "EC2", region := "us-east-1"
    accountID := "111111111111", department := none, project := none
    environment := none, owner := none, costCenter := none
    monthlyCostUSD := 10, tagged := "No", extra := [] }

/-- A fully tagged resource, as loaded. -/
def rowTagged : Row :=
  { resourceID := "R-002", service := "S3", region := "us-east-1"
    accountID := "111111111111", department := some "Finance"
    project := some "Phoenix", environment := some "prod"
    owner := some "ana", costCenter := some "CC-1"
    monthlyCostUSD := 5, tagged := "Yes", extra := [] }

/-- An edit of the untagged resource filling Department and Project. -/
def editA : EditedRow :=
  { resourceID := "R-001", service := "EC2", department := some "Marketing"
    project := some "Apollo", environment := none, owner := none
    costCenter := none, monthlyCostUSD := 10 }

/-- A second edited row carrying the same ResourceID as `editA` but another
Department (the dynamic editor lets the user submit such a table). -/
def editB : EditedRow :=
  { editA with department := some "Sales" }

/-- An edited row whose ResourceID is the one of the TAGGED resource
(obtained by retyping the ResourceID cell or adding a row in the editor). -/
def editOnTagged : EditedRow :=
  { resourceID := "R-002", service := "S3", department := some "Ops"
    project := some "Zeus", environment := none, owner := none
    costCenter := none, monthlyCostUSD := 5 }

/-- C1 is false as stated: when the edited table holds two rows with the
same ResourceID, the matching remediated row cannot carry both edited
Department values; the loop leaves the LAST one, so the first edited row's
values are not applied. -/
theorem claim_C1_counterexample :
    editA ∈ [editA, editB] ∧
    rowUntagged.resourceID = editA.resourceID ∧
    (applyRemediation [editA, editB] [rowUntagged]).map Row.department =
      [some "Sales"] ∧
    editA.department = some "Marketing" ∧
    (applyRemediation [editA, editB] [rowUntagged]).map Row.department ≠
      [editA.department] := by decide

/-- C1 (amended): for every row of the edited table that is the LAST row of
the edited table bearing its ResourceID, every row of the remediated table
with that ResourceID gets its Department, Project, Environment, Owner and
CostCenter from that edited row; when edited ResourceIDs are pairwise
distinct this is every edited row. -/
theorem claim_C1_amended_last_match_wins (edited : List EditedRow) (rem : List Row)
    (r' : Row) (hmem : r' ∈ applyRemediation edited rem) (e : EditedRow)
    (hlast : (matchingEdits edited r'.resourceID).getLast? = some e) :
    r'.department = e.department ∧ r'.project = e.project ∧
    r'.environment = e.environment ∧ r'.owner = e.owner ∧
    r'.costCenter = e.costCenter := by
  obtain ⟨r₀, hr₀, rfl⟩ := mem_applyRemediation edited rem r' hmem
  rw [applyAll_resourceID] at hlast
  have hd := applyAll_field Row.department EditedRow.department
    (by intro e' r h; simp [applyEditedRow, h]) edited r₀
  have hp := applyAll_field Row.project EditedRow.project
    (by intro e' r h; simp [applyEditedRow, h]) edited r₀
  have hv := applyAll_field Row.environment EditedRow.environment
    (by intro e' r h; simp [applyEditedRow, h]) edited r₀
  have ho := applyAll_field Row.owner EditedRow.owner
    (by intro e' r h; simp [applyEditedRow, h]) edited r₀
  have hc := applyAll_field Row.costCenter EditedRow.costCenter
    (by intro e' r h; simp [applyEditedRow, h]) edited r₀
  rw [hlast] at hd hp hv ho hc
  exact ⟨hd, hp, hv, ho, hc⟩

theorem claim_C1_amended_witness :
    (applyAll [editA, editB] rowUntagged).department = editB.department :=
  (claim_C1_amended_last_match_wins [editA, editB] [rowUntagged]
    (applyAll [editA, editB] rowUntagged) (by decide) editB (by decide)).1

/-- C4 is false as stated: the update mask selects rows by ResourceID only,
so an edited table carrying the ResourceID of a row that was tagged at edit
time (obtainable in the dynamic editor) mutates that tagged row. -/
theorem claim_C4_counterexample :
    rowTagged.tagged = "Yes" ∧ rowUntagged.tagged = "No" ∧
    (applyRemediation [editOnTagged] [rowTagged, rowUntagged]).map Row.department =
      [some "Ops", none] ∧
    rowTagged.department = some "Finance" ∧
    (applyRemediation [editOnTagged] [rowTagged, rowUntagged]).get? 0 ≠
      some rowTagged := by decide

/-- C4 (amended): applying remediation mutates only rows of the remediated
table whose ResourceID equals some edited row's ResourceID; every row —
in particular every row tagged at edit time — whose ResourceID appears in
no submitted edited row is completely unchanged. -/
theorem claim_C4_amended_unmatched_rows_unchanged (edited : List EditedRow)
    (rem : List Row) (i : ℕ) (hi : i < rem.length)
    (h : ∀ e ∈ edited, e.resourceID ≠ (rem.get ⟨i, hi⟩).resourceID) :
    (applyRemediation edited rem).get? i = some (rem.get ⟨i, hi⟩) := by
  have hz := applyAll_noMatch edited (rem.get ⟨i, hi⟩) h
  rw [applyRemediation_eq_map, List.get?_map, List.get?_eq_get hi]
  simp only [Option.map_some']
  rw [hz]

theorem claim_C4_amended_witness :
    (applyRemediation [editA] [rowTagged, rowUntagged]).get? 0 =
      some ([rowTagged, rowUntagged].get ⟨0, by decide⟩) :=
  claim_C4_amended_unmatched_rows_unchanged [editA] [rowTagged, rowUntagged]
    0 (by decide) (by decide)

/-- C9: a remediated row's Tagged flag is never set to anything other than
`'Yes'` (it either becomes `'Yes'` or keeps its old value), and when exactly
one edited row carries the row's ResourceID and the row was untagged, the
flag ends as `'Yes'` if and only if that edited row's Department and Project
are both non-null — even an edit filling Environment, Owner and CostCenter
leaves the flag `'No'` when Department or Project is null. -/
theorem claim_C9_tagged_iff_dept_proj (edited : List EditedRow) (rem : List Row)
    (i : ℕ) (hi : i < rem.length) :
    (((applyRemediation edited rem).get? i).map Row.tagged = some "Yes" ∨
      ((applyRemediation edited rem).get? i).map Row.tagged =
        some (rem.get ⟨i, hi⟩).tagged) ∧
    (∀ e : EditedRow,
      matchingEdits edited (rem.get ⟨i, hi⟩).resourceID = [e] →
      (rem.get ⟨i, hi⟩).tagged = "No" →
      (((applyRemediation edited rem).get? i).map Row.tagged = some "Yes" ↔
        (e.department ≠ none ∧ e.project ≠ none))) := by
  rw [applyRemediation_eq_map, List.get?_map, List.get?_eq_get hi]
  have htag := applyAll_tagged edited (rem.get ⟨i, hi⟩)
  constructor
  · cases hb : (matchingEdits edited (rem.get ⟨i, hi⟩).resourceID).any hasDeptProj with
    | false =>
        right
        rw [hb] at htag
        simp only [Option.map_some']
        simp only [Bool.false_eq_true, if_false] at htag
        rw [htag]
    | true =>
        left
        rw [hb] at htag
        simp only [if_pos rfl, if_true] at htag
        simp only [Option.map_some']
        rw [htag]
  · intro e hme hno
    rw [hme] at htag
    simp only [List.any_cons, List.any_nil, Bool.or_false] at htag
    simp only [Option.map_some']
    cases hdp : hasDeptProj e with
    | true =>
        rw [hdp] at htag
        simp only [if_pos rfl, if_true] at htag
        rw [htag]
        simp only [hasDeptProj, Bool.and_eq_true, Option.isSome_iff_ne_none] at hdp
        simp [hdp]
    | false =>
        rw [hdp] at htag
        simp only [Bool.false_eq_true, if_false] at htag
        rw [htag, hno]
        have hne : ¬ (e.department ≠ none ∧ e.project ≠ none) := by
          intro hcon
          have hdp2 : hasDeptProj e = true := by
            simp [hasDeptProj, Option.isSome_iff_ne_none, hcon.1, hcon.2]
          rw [hdp] at hdp2
          exact Bool.false_ne_true hdp2
        constructor
        · intro hcon
          exact absurd (Option.some.inj hcon) (by decide)
        · intro hcon
          exact absurd hcon hne

theorem claim_C9_witness :
    ((applyRemediation [editA] [rowUntagged]).get? 0).map Row.tagged = some "Yes" ↔
      (editA.department ≠ none ∧ editA.project ≠ none) :=
  (claim_C9_tagged_iff_dept_proj [editA] [rowUntagged] 0 (by decide)).2
    editA (by decide) (by decide)

/-- The five tag-descriptive columns of a row, in the order of the
`tag_columns` list (line 34). -/
def tagColumns (r : Row) : List (Option String) :=
  [r.department, r.project, r.environment, r.owner, r.costCenter]

/-- A row of the table returned by `calculate_tag_completeness_score`: the
input row plus the two derived columns added on lines 37-42. -/
structure ScoredRow where
  row : Row
  tagCompleteness : ℕ
  tagCompletenessPercentage : ℚ
deriving DecidableEq

/-- Implementation of `calculate_tag_completeness_score` (lines 32-44): the
count starts at 0 and, for each of the five tag columns, grows by 1 when the
cell is non-NA and not the empty string; the percentage is the count over
the number of tag columns, times 100. -/
def calculate_tag_completeness_score (df : List Row) : List ScoredRow :=
  df.map (fun r =>
    let tc := (tagColumns r).foldl
      (fun acc v => acc + (if v.isSome && !(v == some "") then 1 else 0)) 0
    { row := r, tagCompleteness := tc
      tagCompletenessPercentage := (tc : ℚ) / 5 * 100 })

/-- A cell counted by the spec: a non-null, non-empty tag value. -/
def isFilledTag : Option String → Bool
  | none => false
  | some s => !(s == "")

/-- The count the spec describes: the number of non-empty, non-null values
among the five tag-descriptive fields. -/
def filledTagCount (r : Row) : ℕ :=
  (tagColumns r).countP isFilledTag

theorem tagIndicator_eq (v : Option String) :
    (if v.isSome && !(v == some "") then 1 else 0) =
      (if isFilledTag v then 1 else 0) := by
  cases v with
  | none => rfl
  | some s => rfl

theorem foldl_tagCount (l : List (Option String)) :
    ∀ n : ℕ, l.foldl
      (fun acc v => acc + (if v.isSome && !(v == some "") then 1 else 0)) n =
      n + l.countP isFilledTag := by
  induction l with
  | nil => intro n; simp
  | cons v vs ih =>
      intro n
      rw [List.foldl_cons, ih, List.countP_cons, tagIndicator_eq v]
      cases h : isFilledTag v <;> simp [h] <;> omega

/-- C5: `calculate_tag_completeness_score` gives every row a
TagCompleteness equal to the number of non-empty, non-null values among its
five tag-descriptive fields, and a TagCompletenessPercentage equal to that
count divided by five, times 100. -/
theorem claim_C5_tag_completeness (df : List Row) :
    calculate_tag_completeness_score df =
      df.map (fun r =>
        { row := r, tagCompleteness := filledTagCount r
          tagCompletenessPercentage := (filledTagCount r : ℚ) / 5 * 100 }) := by
  unfold calculate_tag_completeness_score
  congr 1
  funext r
  have hc : (tagColumns r).foldl
      (fun acc v => acc + (if v.isSome && !(v == some "") then 1 else 0)) 0 =
      filledTagCount r := by
    rw [foldl_tagCount (tagColumns r) 0]
    exact Nat.zero_add _
  simp only [hc]

/-- Sum of the MonthlyCostUSD column over a table. -/
def sumCost (df : List Row) : ℚ := df.foldl (fun acc r => acc + r.monthlyCostUSD) 0

/-- Line 60-61: `df.groupby('Tagged')['MonthlyCostUSD'].sum().get('Yes', 0)`. -/
def tagged_cost (df : List Row) : ℚ :=
  sumCost (df.filter (fun r => r.tagged == "Yes"))

/-- Line 62: the cost of the `'No'` group, 0 when the group is absent. -/
def untagged_cost (df : List Row) : ℚ :=
  sumCost (df.filter (fun r => r.tagged == "No"))

/-- Line 63. -/
def total_cost (df : List Row) : ℚ := tagged_cost df + untagged_cost df

/-- Line 64. -/
def untagged_cost_percentage (df : List Row) : ℚ :=
  if total_cost df > 0 then untagged_cost df / total_cost df * 100 else 0

theorem sumCost_foldl_shift (l : List Row) :
    ∀ a : ℚ, l.foldl (fun acc r => acc + r.monthlyCostUSD) a = a + sumCost l := by
  induction l with
  | nil => intro a; simp [sumCost]
  | cons r t ih =>
      intro a
      rw [List.foldl_cons, ih (a + r.monthlyCostUSD)]
      have h0 : sumCost (r :: t) = 0 + r.monthlyCostUSD + sumCost t := by
        show List.foldl (fun acc r => acc + r.monthlyCostUSD) 0 (r :: t) = _
        rw [List.foldl_cons, ih (0 + r.monthlyCostUSD)]
      rw [h0]
      ring

theorem sumCost_cons (r : Row) (t : List Row) :
    sumCost (r :: t) = r.monthlyCostUSD + sumCost t := by
  show List.foldl (fun acc r => acc + r.monthlyCostUSD) 0 (r :: t) = _
  rw [List.foldl_cons, sumCost_foldl_shift t]
  ring

theorem cost_partition (df : List Row)
    (h : ∀ r ∈ df, r.tagged = "Yes" ∨ r.tagged = "No") :
    tagged_cost df + untagged_cost df = sumCost df := by
  induction df with
  | nil => simp [tagged_cost, untagged_cost, sumCost]
  | cons r t ih =>
      have hr := h r (by simp)
      have ht : ∀ x ∈ t, x.tagged = "Yes" ∨ x.tagged = "No" :=
        fun x hx => h x (by simp [hx])
      have iht := ih ht
      cases hr with
      | inl hy =>
          have h1 : tagged_cost (r :: t) = r.monthlyCostUSD + tagged_cost t := by
            unfold tagged_cost
            rw [List.filter_cons, if_pos (by simp [hy]), sumCost_cons]
          have h2 : untagged_cost (r :: t) = untagged_cost t := by
            unfold untagged_cost
            rw [List.filter_cons, if_neg (by simp [hy])]
          rw [h1, h2, sumCost_cons]
          linarith
      | inr hn =>
          have h1 : tagged_cost (r :: t) = tagged_cost t := by
            unfold tagged_cost
            rw [List.filter_cons, if_neg (by simp [hn])]
          have h2 : untagged_cost (r :: t) = r.monthlyCostUSD + untagged_cost t := by
            unfold untagged_cost
            rw [List.filter_cons, if_pos (by simp [hn]), sumCost_cons]
          rw [h1, h2, sumCost_cons]
          linarith

/-- C7: on a table whose Tagged flag is binary (every row `'Yes'` or
`'No'`), `analyze_cost_visibility` computes tagged_cost + untagged_cost
equal to the sum of MonthlyCostUSD over all rows, an
untagged_cost_percentage of 100 * untagged / total when the total is
positive, and 0 when the total is 0. -/
theorem claim_C7_cost_totals (df : List Row)
    (h : ∀ r ∈ df, r.tagged = "Yes" ∨ r.tagged = "No") :
    total_cost df = sumCost df ∧
    (total_cost df > 0 →
      untagged_cost_percentage df = 100 * untagged_cost df / total_cost df) ∧
    (total_cost df = 0 → untagged_cost_percentage df = 0) := by
  refine ⟨cost_partition df h, ?_, ?_⟩
  · intro hpos
    unfold untagged_cost_percentage
    rw [if_pos hpos]
    ring
  · intro h0
    unfold untagged_cost_percentage
    rw [if_neg (by rw [h0]; exact lt_irrefl 0)]

/-- The two-row table used to instantiate C7 concretely. -/
def dfCost : List Row := [rowTagged, rowUntagged]

theorem claim_C7_witness :
    total_cost dfCost = sumCost dfCost ∧
    untagged_cost_percentage dfCost = 100 * untagged_cost dfCost / total_cost dfCost :=
  ⟨(claim_C7_cost_totals dfCost (by decide)).1,
   (claim_C7_cost_totals dfCost (by decide)).2.1
     (by simp [total_cost, tagged_cost, untagged_cost, sumCost, dfCost,
               rowTagged, rowUntagged] <;> norm_num)⟩

/-- Failure of a load: either the underlying file read raised (missing or
unreadable file) or `pd.read_csv` raised on the cleaned text. -/
inductive LoadError where
  | ioError : String → LoadError
  | parseError : String → LoadError
deriving DecidableEq

/-- The parsed CSV: a header row and the data records. -/
structure CSVTable where
  header : List String
  records : List (List String)
deriving DecidableEq

/-- Split a character list at every occurrence of a separator, keeping
empty pieces, as Python `str.split` does. -/
def splitOnChar (c : Char) : List Char → List (List Char)
  | [] => [[]]
  | x :: xs =>
      match splitOnChar c xs with
      | [] => if x == c then [[], []] else [[x]]
      | y :: ys => if x == c then [] :: y :: ys else (x :: y) :: ys

/-- Python `s.strip()`: drop leading and trailing whitespace. -/
def trimChars (l : List Char) : List Char :=
  ((l.dropWhile (fun c => c.isWhitespace)).reverse.dropWhile
    (fun c => c.isWhitespace)).reverse

/-- Python `s.strip('"')`: drop every leading and trailing quote character. -/
def stripQuoteChars (l : List Char) : List Char :=
  ((l.dropWhile (fun c => c == '"')).reverse.dropWhile
    (fun c => c == '"')).reverse

/-- Line 21: `line.strip().strip('"')`. -/
def cleanLineChars (l : List Char) : List Char := stripQuoteChars (trimChars l)

/-- Join cleaned lines back with newlines, as `'\n'.join` on line 25. -/
def joinLines : List (List Char) → List Char
  | [] => []
  | [l] => l
  | l :: rest => l ++ '\n' :: joinLines rest

/-- Lines 19-25: clean every line and join the results with newlines. -/
def cleanContent (content : String) : String :=
  String.mk (joinLines ((splitOnChar '\n' content.toList).map cleanLineChars))

/-- Model of `pd.read_csv` on a string (line 29): skip blank lines; raise
EmptyDataError when nothing is left; raise a tokenizing ParserError when a
record has more comma-separated fields than the header; otherwise return
the table. -/
def parseCSV (content : String) : Except LoadError CSVTable :=
  match (splitOnChar '\n' content.toList).filter
      (fun l => !(trimChars l).isEmpty) with
  | [] => Except.error (LoadError.parseError "No columns to parse from file")
  | header :: rest =>
      if rest.all (fun l =>
          (splitOnChar ',' l).length ≤ (splitOnChar ',' header).length) then
        Except.ok
          { header := (splitOnChar ',' header).map String.mk
            records := rest.map (fun l => (splitOnChar ',' l).map String.mk) }
      else
        Except.error (LoadError.parseError "Error tokenizing data")

/-- Implementation of `load_cloudmart_data` (lines 13-30), the file read
embedded as an `Except`-valued argument: the body has no handler, so a
failed read propagates as is, and otherwise the cleaned text goes straight
to the CSV parse, whose error also propagates. -/
def load_cloudmart_data (fileContents : Except String String) :
    Except LoadError CSVTable :=
  match fileContents with
  | Except.error e => Except.error (LoadError.ioError e)
  | Except.ok content => parseCSV (cleanContent content)

/-- C8: loading is a single eager read with no error recovery: a missing or
unreadable file propagates the read error, an unparseable cleaned text
propagates the parse error, and a successful load can only be the parse of
the file that was read — never a substituted default table. -/
theorem claim_C8_load_propagates_errors :
    (∀ e : String, load_cloudmart_data (Except.error e) =
      Except.error (LoadError.ioError e)) ∧
    (∀ (content : String) (err : LoadError),
      parseCSV (cleanContent content) = Except.error err →
      load_cloudmart_data (Except.ok content) = Except.error err) ∧
    (∀ (fc : Except String String) (t : CSVTable),
      load_cloudmart_data fc = Except.ok t →
      ∃ content, fc = Except.ok content ∧
        parseCSV (cleanContent content) = Except.ok t) := by
  refine ⟨fun e => rfl, fun c err h => h, ?_⟩
  intro fc t h
  cases fc with
  | error e => exact absurd h (by simp [load_cloudmart_data])
  | ok c => exact ⟨c, rfl, h⟩

theorem claim_C8_witness :
    load_cloudmart_data (Except.error "FileNotFoundError: original.csv") =
      Except.error (LoadError.ioError "FileNotFoundError: original.csv") ∧
    load_cloudmart_data (Except.ok "") =
      Except.error (LoadError.parseError "No columns to parse from file") :=
  ⟨claim_C8_load_propagates_errors.1 "FileNotFoundError: original.csv",
   claim_C8_load_propagates_errors.2.1 ""
     (LoadError.parseError "No columns to parse from file") rfl⟩
